import Mathlib

/-!
Shallow embedding of the persistent parse-cache subsystem of the esbuild
fork: the source-index allocator (`internal/cache/cache.go`), the
per-language parse caches (`internal/cache/cache_ast.go`), and the JS AST
serialization helpers (`internal/js_ast/js_ast.go`, `internal/ast`):
symbol references, number-literal marshalling, the scope-tree wire format,
and the operator table.

Go maps are embedded as association lists with replace-or-add insertion,
Go strings as `String`, machine integers as `Nat` (with explicit bounds or
`% 2 ^ 32` where overflow matters), fallible or panicking code as
`Option`-valued functions, and `fmt.Sprintf`/`fmt.Sscanf` with the `%d`
and `%s` verbs as explicit decimal rendering and token scanning over
character lists.
-/

namespace Esbuild

/-! ### Association lists standing in for Go maps -/

/-- Go map lookup: `v, ok := m[k]` becomes an `Option`. -/
def lookupA {κ α : Type} [DecidableEq κ] : List (κ × α) → κ → Option α
  | [], _ => none
  | (k, v) :: rest, key => if key = k then some v else lookupA rest key

/-- Go map assignment `m[k] = v`: replace the binding if present, else add it. -/
def insertA {κ α : Type} [DecidableEq κ] : List (κ × α) → κ → α → List (κ × α)
  | [], key, val => [(key, val)]
  | (k, v) :: rest, key, val =>
    if key = k then (k, val) :: rest else (k, v) :: insertA rest key val

theorem lookupA_insertA_self {κ α : Type} [DecidableEq κ]
    (l : List (κ × α)) (key : κ) (val : α) :
    lookupA (insertA l key val) key = some val := by
  induction l with
  | nil => simp [insertA, lookupA]
  | cons p rest ih =>
    obtain ⟨k, v⟩ := p
    by_cases h : key = k <;> simp [insertA, lookupA, h, ih]

/-! ### Decimal rendering and scanning: the model of `%d` in `fmt.Sprintf`
and `fmt.Sscanf`. -/

/-- Numeric value of a decimal digit character. -/
def decDigitVal (c : Char) : Nat := c.toNat - 48

/-- How a scanner accumulates a decimal number, most significant digit first. -/
def parseDigits (cs : List Char) : Nat :=
  cs.foldl (fun acc c => 10 * acc + decDigitVal c) 0

/-- The decimal rendering of a natural number, as `Sprintf %d` emits it. -/
def decChars (n : Nat) : List Char :=
  if n = 0 then ['0'] else ((Nat.digits 10 n).map Nat.digitChar).reverse

theorem digitChar_isDigit {d : Nat} (h : d < 10) :
    (Nat.digitChar d).isDigit = true := by
  interval_cases d <;> decide

theorem decDigitVal_digitChar {d : Nat} (h : d < 10) :
    decDigitVal (Nat.digitChar d) = d := by
  interval_cases d <;> decide

theorem decChars_ne_nil (n : Nat) : decChars n ≠ [] := by
  unfold decChars
  split
  · simp
  · next h =>
    simp only [ne_eq, List.reverse_eq_nil_iff, List.map_eq_nil_iff]
    exact Nat.digits_ne_nil_iff_ne_zero.mpr h

theorem decChars_all_digit (n : Nat) : ∀ c ∈ decChars n, c.isDigit = true := by
  intro c hc
  unfold decChars at hc
  split at hc
  · simp only [List.mem_singleton] at hc
    subst hc; decide
  · rw [List.mem_reverse, List.mem_map] at hc
    obtain ⟨d, hd, rfl⟩ := hc
    exact digitChar_isDigit (Nat.digits_lt_base (by norm_num) hd)

theorem isDigit_ne_space {c : Char} (h : c.isDigit = true) : ¬ c = ' ' := by
  intro hc; subst hc; exact absurd h (by decide)

theorem isDigit_ne_bang {c : Char} (h : c.isDigit = true) : ¬ c = '!' := by
  intro hc; subst hc; exact absurd h (by decide)

/-- Folding decimal digits most-significant-first recovers the little-endian
`Nat.ofDigits` value, with the accumulator shifted past the whole list. -/
theorem foldl_digits_reverse (l : List Nat) (acc : Nat) :
    List.foldl (fun a d => 10 * a + d) acc l.reverse
      = acc * 10 ^ l.length + Nat.ofDigits 10 l := by
  induction l generalizing acc with
  | nil => simp
  | cons d t ih =>
    rw [List.reverse_cons, List.foldl_append, ih, Nat.ofDigits_cons]
    simp only [List.foldl_cons, List.foldl_nil, List.length_cons, pow_succ]
    ring

/-- Scanning the decimal rendering of `n` gives back `n`. -/
theorem parseDigits_decChars (n : Nat) : parseDigits (decChars n) = n := by
  rcases Nat.eq_zero_or_pos n with h | h
  · subst h; rfl
  · have hne : n ≠ 0 := Nat.pos_iff_ne_zero.mp h
    unfold decChars parseDigits
    rw [if_neg hne, ← List.map_reverse, List.foldl_map]
    refine Eq.trans (List.foldl_ext _ (fun a d => 10 * a + d) 0 ?congr) ?rest
    · intro a d hd
      rw [List.mem_reverse] at hd
      show 10 * a + decDigitVal (Nat.digitChar d) = 10 * a + d
      rw [decDigitVal_digitChar (Nat.digits_lt_base (by norm_num) hd)]
    · rw [foldl_digits_reverse, Nat.ofDigits_digits]
      simp

/-! ### Helper facts about `takeWhile` / `dropWhile`, the shape of `Sscanf`
token scanning. -/

theorem takeWhile_eq_self_of {α : Type} (p : α → Bool) :
    ∀ l : List α, (∀ x ∈ l, p x = true) → l.takeWhile p = l
  | [], _ => rfl
  | a :: t, h => by
    rw [List.takeWhile_cons_of_pos (h a (by simp))]
    rw [takeWhile_eq_self_of p t (fun x hx => h x (by simp [hx]))]

theorem dropWhile_eq_nil_of {α : Type} (p : α → Bool) :
    ∀ l : List α, (∀ x ∈ l, p x = true) → l.dropWhile p = []
  | [], _ => rfl
  | a :: t, h => by
    rw [List.dropWhile_cons_of_pos (h a (by simp))]
    exact dropWhile_eq_nil_of p t (fun x hx => h x (by simp [hx]))

theorem takeWhile_append_cons_of {α : Type} (p : α → Bool) (b : α) (ts : List α)
    (hb : p b = false) :
    ∀ xs : List α, (∀ x ∈ xs, p x = true) →
      (xs ++ b :: ts).takeWhile p = xs
  | [], _ => by simp [List.takeWhile_cons_of_neg, hb]
  | a :: t, h => by
    rw [List.cons_append, List.takeWhile_cons_of_pos (h a (by simp))]
    rw [takeWhile_append_cons_of p b ts hb t (fun x hx => h x (by simp [hx]))]

theorem dropWhile_append_cons_of {α : Type} (p : α → Bool) (b : α) (ts : List α)
    (hb : p b = false) :
    ∀ xs : List α, (∀ x ∈ xs, p x = true) →
      (xs ++ b :: ts).dropWhile p = b :: ts
  | [], _ => by simp [List.dropWhile_cons_of_neg, hb]
  | a :: t, h => by
    rw [List.cons_append, List.dropWhile_cons_of_pos (h a (by simp))]
    exact dropWhile_append_cons_of p b ts hb t (fun x hx => h x (by simp [hx]))

/-! ### `ast.Ref` and its string encoding (`Ref.ToString` / `Ref.FromString`,
`internal/ast`) -/

/-- A symbol reference: a pair of 32-bit indices (`uint32` in the source). -/
structure Ref where
  sourceIndex : Nat
  innerIndex : Nat
deriving DecidableEq

/-- `Ref.ToString`: `fmt.Sprintf("%d!~!%d", ref.SourceIndex, ref.InnerIndex)`. -/
def Ref.ToString (r : Ref) : String :=
  (decChars r.sourceIndex ++ '!' :: '~' :: '!' :: decChars r.innerIndex).asString

/-- One `%d` step of `Sscanf` into a `*uint32`: skip leading spaces, read a
nonempty digit run, reject values that do not fit in 32 bits. `none` means the
scan stopped with an error and the remaining arguments kept their zero values. -/
def scanUint32 (cs : List Char) : Option (Nat × List Char) :=
  let cs1 := cs.dropWhile (fun c => decide (c = ' '))
  let ds := cs1.takeWhile Char.isDigit
  if ds.isEmpty then none
  else if parseDigits ds < 2 ^ 32 then some (parseDigits ds, cs1.dropWhile Char.isDigit)
  else none

/-- `Ref.FromString`: `fmt.Sscanf(s, "%d!~!%d", &ref.SourceIndex,
&ref.InnerIndex)` with the error discarded, so fields not reached by the scan
keep their zero values. -/
def Ref.FromString (s : String) : Ref :=
  match scanUint32 s.data with
  | none => { sourceIndex := 0, innerIndex := 0 }
  | some (v1, rest) =>
    match rest with
    | '!' :: '~' :: '!' :: rest2 =>
      match scanUint32 rest2 with
      | none => { sourceIndex := v1, innerIndex := 0 }
      | some (v2, _) => { sourceIndex := v1, innerIndex := v2 }
    | _ => { sourceIndex := v1, innerIndex := 0 }

/-- Scanning a decimal rendering followed by a non-digit (or nothing) consumes
exactly the rendering. -/
theorem scanUint32_decChars (n : Nat) (hn : n < 2 ^ 32) (rest : List Char)
    (hrest : ∀ b ts, rest = b :: ts → b.isDigit = false ∧ ¬ b = ' ') :
    scanUint32 (decChars n ++ rest) = some (n, rest) := by
  obtain ⟨c0, cs0, hdec⟩ := List.exists_cons_of_ne_nil (decChars_ne_nil n)
  have hall := decChars_all_digit n
  have hc0 : c0.isDigit = true := hall c0 (by rw [hdec]; simp)
  have hdrop1 : (decChars n ++ rest).dropWhile (fun c => decide (c = ' '))
      = decChars n ++ rest := by
    rw [hdec, List.cons_append]
    exact List.dropWhile_cons_of_neg (by simp [isDigit_ne_space hc0])
  cases rest with
  | nil =>
    rw [List.append_nil] at hdrop1 ⊢
    simp only [scanUint32]
    rw [hdrop1, takeWhile_eq_self_of Char.isDigit _ hall,
      dropWhile_eq_nil_of Char.isDigit _ hall]
    rw [if_neg (by simp [List.isEmpty_iff, decChars_ne_nil n]),
      parseDigits_decChars, if_pos hn]
  | cons b ts =>
    obtain ⟨hb, _⟩ := hrest b ts rfl
    simp only [scanUint32]
    rw [hdrop1, takeWhile_append_cons_of Char.isDigit b ts hb _ hall,
      dropWhile_append_cons_of Char.isDigit b ts hb _ hall]
    rw [if_neg (by simp [List.isEmpty_iff, decChars_ne_nil n]),
      parseDigits_decChars, if_pos hn]

/-- C8: for every `Ref` made of 32-bit indices, `Ref.FromString` inverts
`Ref.ToString`, whose output is `"<source_index>!~!<inner_index>"`. -/
theorem ref_FromString_ToString (r : Ref)
    (hs : r.sourceIndex < 2 ^ 32) (hi : r.innerIndex < 2 ^ 32) :
    Ref.FromString (Ref.ToString r) = r := by
  have h1 : scanUint32 (decChars r.sourceIndex ++ '!' :: '~' :: '!' :: decChars r.innerIndex)
      = some (r.sourceIndex, '!' :: '~' :: '!' :: decChars r.innerIndex) := by
    apply scanUint32_decChars r.sourceIndex hs
    intro b ts hb
    injection hb with hb1 _
    subst hb1
    exact ⟨by decide, by decide⟩
  have h2 : scanUint32 (decChars r.innerIndex) = some (r.innerIndex, []) := by
    have := scanUint32_decChars r.innerIndex hi [] (fun b ts hb => by cases hb)
    rwa [List.append_nil] at this
  have hdata : (Ref.ToString r).data
      = decChars r.sourceIndex ++ '!' :: '~' :: '!' :: decChars r.innerIndex := rfl
  simp only [Ref.FromString, hdata, h1, h2]

/-- Witness for C8 at a concrete reference. -/
theorem ref_FromString_ToString_witness :
    (7 : Nat) < 2 ^ 32 ∧ Ref.FromString (Ref.ToString ⟨7, 42⟩) = ⟨7, 42⟩ :=
  ⟨by decide, ref_FromString_ToString ⟨7, 42⟩ (by decide) (by decide)⟩

/-! ### `logger.Path`, the source-index key encoding, and the source-index
allocator (`internal/cache/cache.go`) -/

/-- Modelled from the spec: `logger.Path` lives in the `logger` package, which
is not among the sources here; spec §3.1 describes `key_path` as the canonical
interned path, so the model keeps one text component. -/
structure Path where
  text : String
deriving DecidableEq

/-- Modelled from the spec: `logger.Path.ToString` renders the canonical path
text. -/
def Path.ToString (p : Path) : String := p.text

/-- Modelled from the spec: `logger.PathFromString`, the inverse of
`Path.ToString` (it returns a path plus an error; the error case is the
`Option`). -/
def PathFromString (s : String) : Option Path := some ⟨s⟩

/-- `SourceIndexKind` is a `uint8` enumeration (`SourceIndexNormal`,
`SourceIndexJSStubForCSS`). -/
abbrev SourceIndexKind := Fin 256

def SourceIndexNormal : SourceIndexKind := 0

def SourceIndexJSStubForCSS : SourceIndexKind := 1

structure sourceIndexKey where
  path : Path
  kind : SourceIndexKind
deriving DecidableEq

/-- `sourceIndexKey.ToString`: `fmt.Sprintf("%s %d", pathStr, s.kind)`. -/
def sourceIndexKey.ToString (k : sourceIndexKey) : String :=
  (k.path.ToString.data ++ ' ' :: decChars k.kind.val).asString

/-- The whitespace class of Go's `fmt` scanner (the `space` table in
`fmt/scan.go`): horizontal tab through carriage return, space, NEL, NBSP, the
U+2000 to U+200A range, the line and paragraph separators, narrow no-break
space, medium mathematical space, and ideographic space. The `%s` verb stops
at any of these and the scanner skips runs of them between items. -/
def goIsSpace (c : Char) : Bool :=
  decide ((0x09 ≤ c.toNat ∧ c.toNat ≤ 0x0d) ∨ c.toNat = 0x20 ∨ c.toNat = 0x85
    ∨ c.toNat = 0xa0 ∨ (0x2000 ≤ c.toNat ∧ c.toNat ≤ 0x200a) ∨ c.toNat = 0x2028
    ∨ c.toNat = 0x2029 ∨ c.toNat = 0x202f ∨ c.toNat = 0x205f ∨ c.toNat = 0x3000)

/-- Every character of a decimal rendering lies outside the scanner's
whitespace class. -/
theorem decChars_not_goSpace (n : Nat) : ∀ c ∈ decChars n, goIsSpace c = false := by
  intro c hc
  unfold decChars at hc
  split at hc
  · simp only [List.mem_singleton] at hc
    subst hc; decide
  · rw [List.mem_reverse, List.mem_map] at hc
    obtain ⟨d, hd, rfl⟩ := hc
    have hd10 : d < 10 := Nat.digits_lt_base (by norm_num) hd
    interval_cases d <;> decide

/-- `SrcIdxKeyFromString`: `fmt.Sscanf(str, "%s %d", &pathStr, &kind)` followed
by `logger.PathFromString`; both scan errors panic in Go, hence the `Option`.
The `%s` verb reads a maximal nonempty run of non-whitespace characters and
the `%d` verb a nonempty digit run whose value must fit the `uint8` kind. -/
def SrcIdxKeyFromString (s : String) : Option sourceIndexKey :=
  let cs := s.data.dropWhile goIsSpace
  let tok := cs.takeWhile (fun c => ! goIsSpace c)
  if tok.isEmpty then none
  else
    let rest := (cs.dropWhile (fun c => ! goIsSpace c)).dropWhile goIsSpace
    let ds := rest.takeWhile Char.isDigit
    if ds.isEmpty then none
    else if h : parseDigits ds < 256 then
      (PathFromString tok.asString).map (fun p => { path := p, kind := ⟨parseDigits ds, h⟩ })
    else none

/-- State of `SourceIndexCache`: two maps and the `uint32` counter. -/
structure SourceIndexCache where
  globEntries : List (Nat × Nat)
  entries : List (sourceIndexKey × Nat)
  nextSourceIndex : Nat
deriving DecidableEq

/-- The on-disk shape `SourceIndexCacheSerialized`, with stringified keys. -/
structure SourceIndexCacheSerialized where
  globEntries : List (Nat × Nat)
  entries : List (String × Nat)
  nextSourceIndex : Nat
deriving DecidableEq

/-- `SourceIndexCache.Serialize`. -/
def SourceIndexCache.Serialize (c : SourceIndexCache) : SourceIndexCacheSerialized :=
  { nextSourceIndex := c.nextSourceIndex
    entries := c.entries.map (fun kv => (kv.1.ToString, kv.2))
    globEntries := c.globEntries }

/-- `SourceIndexCache.Deserialize`; the Go version mutates in place and panics
when a key fails to scan, so the model returns the new state or `none`. -/
def SourceIndexCache.Deserialize (s : SourceIndexCacheSerialized) :
    Option SourceIndexCache :=
  (s.entries.mapM (fun kv => (SrcIdxKeyFromString kv.1).map (fun k => (k, kv.2)))).map
    (fun es =>
      { nextSourceIndex := s.nextSourceIndex, entries := es, globEntries := s.globEntries })

/-- `SourceIndexCache.Get`: return the existing index for the key, else assign
`nextSourceIndex` and post-increment it (a `uint32` increment wraps). -/
def SourceIndexCache.Get (c : SourceIndexCache) (path : Path) (kind : SourceIndexKind) :
    Nat × SourceIndexCache :=
  match lookupA c.entries { path := path, kind := kind } with
  | some sourceIndex => (sourceIndex, c)
  | none =>
    (c.nextSourceIndex,
      { c with
        nextSourceIndex := (c.nextSourceIndex + 1) % 2 ^ 32
        entries := insertA c.entries { path := path, kind := kind } c.nextSourceIndex })

/-- `SourceIndexCache.Persist`, parametrized by the result of `json.Marshal`
(whose error case panics in Go) and by whether `os.WriteFile` fails. Returns
the error returned to the caller and whether the file write was attempted.
The Go code stores the write error in `err2`, prints it, and falls through to
`return nil`, so the returned error does not depend on the write outcome. -/
def SourceIndexCache.Persist (c : SourceIndexCache)
    (marshal : SourceIndexCacheSerialized → String) (writeFails : Bool) :
    Option String × Bool :=
  if (marshal c.Serialize).length ≠ 0 then (none, true)
  else (some "error marshalling cache entry, Empty entry serialzied", false)

/-- One entry whose path text contains a space: `%s` stops at the space, so the
stringified key `"a 5 0"` scans back as path `"a"` with kind `5`. -/
def sicWithSpacePath : SourceIndexCache :=
  { globEntries := []
    entries := [({ path := ⟨"a 5"⟩, kind := 0 }, 7)]
    nextSourceIndex := 9 }

/-- Counterexample for C4: a stored key whose path contains a space is not
restored by a serialize/deserialize round trip — the rehydrated state no
longer maps it at all, against the claim that every previously mapped key
keeps its index. -/
theorem sic_roundtrip_loses_space_path :
    lookupA sicWithSpacePath.entries { path := ⟨"a 5"⟩, kind := 0 } = some 7
    ∧ (SourceIndexCache.Deserialize sicWithSpacePath.Serialize).map
        (fun c => lookupA c.entries { path := ⟨"a 5"⟩, kind := 0 }) = some none := by
  constructor
  · rfl
  · decide

/-- Round trip of one stringified key, provided the path text is nonempty and
free of scanner whitespace. -/
theorem srcIdxKey_roundtrip (k : sourceIndexKey)
    (h1 : k.path.text.data ≠ []) (h2 : ∀ c ∈ k.path.text.data, goIsSpace c = false) :
    SrcIdxKeyFromString k.ToString = some k := by
  obtain ⟨c0, cs0, hdec⟩ := List.exists_cons_of_ne_nil h1
  have hnotsp : ∀ c ∈ k.path.text.data, (fun c => ! goIsSpace c) c = true := by
    intro c hc
    simp [h2 c hc]
  have hdata : (k.ToString).data = k.path.text.data ++ ' ' :: decChars k.kind.val := rfl
  have hc0 : goIsSpace c0 = false := h2 c0 (by rw [hdec]; simp)
  have hdrop : (k.path.text.data ++ ' ' :: decChars k.kind.val).dropWhile goIsSpace
      = k.path.text.data ++ ' ' :: decChars k.kind.val := by
    rw [hdec, List.cons_append]
    exact List.dropWhile_cons_of_neg (by simp [hc0])
  have htok : (k.path.text.data ++ ' ' :: decChars k.kind.val).takeWhile
      (fun c => ! goIsSpace c) = k.path.text.data :=
    takeWhile_append_cons_of _ ' ' _ (by decide) _ hnotsp
  have hrest : (k.path.text.data ++ ' ' :: decChars k.kind.val).dropWhile
      (fun c => ! goIsSpace c) = ' ' :: decChars k.kind.val :=
    dropWhile_append_cons_of _ ' ' _ (by decide) _ hnotsp
  obtain ⟨d0, ds0, hdc⟩ := List.exists_cons_of_ne_nil (decChars_ne_nil k.kind.val)
  have hd0 : goIsSpace d0 = false :=
    decChars_not_goSpace k.kind.val d0 (by rw [hdc]; simp)
  have hdrop2 : (' ' :: decChars k.kind.val).dropWhile goIsSpace
      = decChars k.kind.val := by
    rw [List.dropWhile_cons_of_pos (by decide), hdc]
    exact List.dropWhile_cons_of_neg (by simp [hd0])
  have htake : (decChars k.kind.val).takeWhile Char.isDigit = decChars k.kind.val :=
    takeWhile_eq_self_of Char.isDigit _ (decChars_all_digit k.kind.val)
  simp only [SrcIdxKeyFromString, hdata, hdrop, htok, hrest, hdrop2, htake,
    parseDigits_decChars]
  rw [if_neg (by simp [List.isEmpty_iff, hdec]),
    if_neg (by simp [List.isEmpty_iff, decChars_ne_nil k.kind.val]),
    dif_pos k.kind.isLt]
  rfl

/-- C4 (amended): serializing and deserializing restores the allocator state
exactly — hence `next_source_index` and every key's index — provided every
stored key's path text is nonempty and contains no character of the scanner's
whitespace class. -/
theorem sic_serialize_deserialize_roundtrip (c : SourceIndexCache)
    (h : ∀ kv ∈ c.entries,
      kv.1.path.text.data ≠ [] ∧ ∀ ch ∈ kv.1.path.text.data, goIsSpace ch = false) :
    SourceIndexCache.Deserialize c.Serialize = some c := by
  have hmapM : ∀ l : List (sourceIndexKey × Nat),
      (∀ kv ∈ l,
        kv.1.path.text.data ≠ [] ∧ ∀ ch ∈ kv.1.path.text.data, goIsSpace ch = false) →
      (l.map (fun kv => (kv.1.ToString, kv.2))).mapM
        (fun kv => (SrcIdxKeyFromString kv.1).map (fun k => (k, kv.2))) = some l := by
    intro l
    induction l with
    | nil => intro _; rfl
    | cons kv rest ih =>
      intro hl
      obtain ⟨hk1, hk2⟩ := hl kv (by simp)
      rw [List.map_cons, List.mapM_cons, srcIdxKey_roundtrip kv.1 hk1 hk2,
        ih (fun x hx => hl x (by simp [hx]))]
      rfl
  unfold SourceIndexCache.Deserialize SourceIndexCache.Serialize
  rw [hmapM c.entries h]
  rfl

/-- Witness for C4 (amended) at a concrete allocator state. -/
theorem sic_serialize_deserialize_roundtrip_witness :
    SourceIndexCache.Deserialize
        (SourceIndexCache.Serialize
          { globEntries := [(3, 4)]
            entries := [({ path := ⟨"/a.js"⟩, kind := 0 }, 1), ({ path := ⟨"/b.js"⟩, kind := 1 }, 2)]
            nextSourceIndex := 5 })
      = some
          { globEntries := [(3, 4)]
            entries := [({ path := ⟨"/a.js"⟩, kind := 0 }, 1), ({ path := ⟨"/b.js"⟩, kind := 1 }, 2)]
            nextSourceIndex := 5 } :=
  sic_serialize_deserialize_roundtrip _ (by decide)

/-- C5: `Get` returns the stored index and leaves the state unchanged when the
key is present; otherwise it returns `next_source_index`, post-increments it
and records the key; consequently a second `Get` of the same key returns the
same index and leaves the allocator unchanged. -/
theorem sic_get_spec (c : SourceIndexCache) (p : Path) (k : SourceIndexKind) :
    (∀ i, lookupA c.entries { path := p, kind := k } = some i → c.Get p k = (i, c))
    ∧ (lookupA c.entries { path := p, kind := k } = none →
        c.Get p k = (c.nextSourceIndex,
          { c with
            nextSourceIndex := (c.nextSourceIndex + 1) % 2 ^ 32
            entries := insertA c.entries { path := p, kind := k } c.nextSourceIndex }))
    ∧ (c.Get p k).2.Get p k = c.Get p k := by
  refine ⟨fun i hi => by simp [SourceIndexCache.Get, hi], fun hn => by
    simp [SourceIndexCache.Get, hn], ?idem⟩
  cases hl : lookupA c.entries { path := p, kind := k } with
  | some i =>
    simp [SourceIndexCache.Get, hl]
  | none =>
    simp [SourceIndexCache.Get, hl, lookupA_insertA_self]

/-- Witness for C5 at a concrete state: a fresh key is assigned index 3, the
counter moves to 4, and the repeat call is a no-op returning the same index. -/
theorem sic_get_spec_witness :
    SourceIndexCache.Get { globEntries := [], entries := [], nextSourceIndex := 3 } ⟨"/x.js"⟩ 0
      = (3, { globEntries := []
              entries := [({ path := ⟨"/x.js"⟩, kind := 0 }, 3)]
              nextSourceIndex := 4 })
    ∧ (SourceIndexCache.Get { globEntries := [], entries := [], nextSourceIndex := 3 }
          ⟨"/x.js"⟩ 0).2.Get ⟨"/x.js"⟩ 0
        = SourceIndexCache.Get { globEntries := [], entries := [], nextSourceIndex := 3 }
            ⟨"/x.js"⟩ 0 :=
  ⟨(sic_get_spec _ _ _).2.1 rfl, (sic_get_spec _ _ _).2.2⟩

/-- C6 (code bug): `Persist` keeps returning `nil` when the filesystem write
fails — the error is printed and dropped — against the stated contract that a
failed write surfaces an error. First conjunct: the marshalled payload is
nonempty and the write fails, yet the returned error is `none`. Second
conjunct: the empty-payload guard itself behaves as claimed, returning an
error without touching the file. -/
theorem sic_persist_swallows_write_error :
    SourceIndexCache.Persist
        { globEntries := [], entries := [], nextSourceIndex := 3 }
        (fun _ => "\x7b\x7d") true
      = (none, true)
    ∧ SourceIndexCache.Persist
        { globEntries := [], entries := [], nextSourceIndex := 3 }
        (fun _ => "") false
      = (some "error marshalling cache entry, Empty entry serialzied", false) :=
  ⟨rfl, rfl⟩

/-! ### Operator codes and associativity (`internal/js_ast/js_ast.go`) -/

/-- `OpCode` is a `uint8` whose values follow the `iota` order below. -/
abbrev OpCode := Nat

def UnOpPos : OpCode := 0

def UnOpNeg : OpCode := 1

def UnOpCpl : OpCode := 2

def UnOpNot : OpCode := 3

def UnOpVoid : OpCode := 4

def UnOpTypeof : OpCode := 5

def UnOpDelete : OpCode := 6

def UnOpPreDec : OpCode := 7

def UnOpPreInc : OpCode := 8

def UnOpPostDec : OpCode := 9

def UnOpPostInc : OpCode := 10

def BinOpAdd : OpCode := 11

def BinOpSub : OpCode := 12

def BinOpMul : OpCode := 13

def BinOpDiv : OpCode := 14

def BinOpRem : OpCode := 15

def BinOpPow : OpCode := 16

def BinOpLt : OpCode := 17

def BinOpLe : OpCode := 18

def BinOpGt : OpCode := 19

def BinOpGe : OpCode := 20

def BinOpIn : OpCode := 21

def BinOpInstanceof : OpCode := 22

def BinOpShl : OpCode := 23

def BinOpShr : OpCode := 24

def BinOpUShr : OpCode := 25

def BinOpLooseEq : OpCode := 26

def BinOpLooseNe : OpCode := 27

def BinOpStrictEq : OpCode := 28

def BinOpStrictNe : OpCode := 29

def BinOpNullishCoalescing : OpCode := 30

def BinOpLogicalOr : OpCode := 31

def BinOpLogicalAnd : OpCode := 32

def BinOpBitwiseOr : OpCode := 33

def BinOpBitwiseAnd : OpCode := 34

def BinOpBitwiseXor : OpCode := 35

def BinOpComma : OpCode := 36

def BinOpAssign : OpCode := 37

def BinOpAddAssign : OpCode := 38

def BinOpSubAssign : OpCode := 39

def BinOpMulAssign : OpCode := 40

def BinOpDivAssign : OpCode := 41

def BinOpRemAssign : OpCode := 42

def BinOpPowAssign : OpCode := 43

def BinOpShlAssign : OpCode := 44

def BinOpShrAssign : OpCode := 45

def BinOpUShrAssign : OpCode := 46

def BinOpBitwiseOrAssign : OpCode := 47

def BinOpBitwiseAndAssign : OpCode := 48

def BinOpBitwiseXorAssign : OpCode := 49

def BinOpNullishCoalescingAssign : OpCode := 50

def BinOpLogicalOrAssign : OpCode := 51

def BinOpLogicalAndAssign : OpCode := 52

/-- `op >= BinOpAdd && op < BinOpComma && op != BinOpPow`. -/
def OpCode.IsLeftAssociative (op : OpCode) : Bool :=
  decide (BinOpAdd ≤ op ∧ op < BinOpComma ∧ ¬ op = BinOpPow)

/-- `op >= BinOpAssign || op == BinOpPow`. -/
def OpCode.IsRightAssociative (op : OpCode) : Bool :=
  decide (BinOpAssign ≤ op ∨ op = BinOpPow)

/-- Counterexample for C9: the comma operator is a binary non-assignment
operator other than `**`, yet `IsLeftAssociative` rejects it (the opcode table
marks it non-associative). -/
theorem comma_not_left_associative :
    BinOpAdd ≤ BinOpComma ∧ BinOpComma < BinOpAssign ∧ ¬ BinOpComma = BinOpPow
    ∧ OpCode.IsLeftAssociative BinOpComma = false := by decide

/-- C9 (amended): over the opcode enumeration, `**` is right-associative and
not left-associative; every binary non-assignment operator other than `**` and
the comma is left-associative and not right-associative; the comma operator is
neither; every assignment operator is right-associative and not
left-associative. -/
theorem opcode_associativity (op : OpCode) (hop : op ≤ BinOpLogicalAndAssign) :
    (op = BinOpPow →
      OpCode.IsRightAssociative op = true ∧ OpCode.IsLeftAssociative op = false)
    ∧ (BinOpAdd ≤ op → op < BinOpComma → ¬ op = BinOpPow →
      OpCode.IsLeftAssociative op = true ∧ OpCode.IsRightAssociative op = false)
    ∧ (op = BinOpComma →
      OpCode.IsLeftAssociative op = false ∧ OpCode.IsRightAssociative op = false)
    ∧ (BinOpAssign ≤ op →
      OpCode.IsRightAssociative op = true ∧ OpCode.IsLeftAssociative op = false) := by
  have h52 : op ≤ 52 := hop
  interval_cases op <;> decide

/-- Witness for C9 (amended) at the exponentiation operator. -/
theorem opcode_associativity_witness :
    OpCode.IsRightAssociative BinOpPow = true
    ∧ OpCode.IsLeftAssociative BinOpPow = false :=
  (opcode_associativity BinOpPow (by decide)).1 rfl

/-! ### Number-literal marshalling (`Expr.MarshalJSON` / `Expr.UnmarshalJSON`,
`internal/js_ast/js_ast.go`) -/

/-- `logger.Loc`, a source offset carried through unchanged. -/
structure Loc where
  start : Int
deriving DecidableEq

/-- The values a `float64` number literal can hold, with finite doubles carried
by their exact rational value (every finite double is an exact rational, and
Go's JSON layer round-trips finite doubles exactly via the shortest decimal
rendering). -/
inductive FVal : Type
  | finite (val : ℚ)
  | posInf
  | negInf
  | nan
deriving DecidableEq

/-- `math.MaxFloat64`. -/
def maxFloat64 : ℚ := (2 ^ 53 - 1) * 2 ^ 971

/-- `math.SmallestNonzeroFloat64`. -/
def smallestNonzeroFloat64 : ℚ := 1 / 2 ^ 1074

/-- The reserved sentinel literal the code substitutes for NaN. -/
def nanSentinel : ℚ := -12312333

/-- The `Expr.MarshalJSON` substitution on a number value: `+Inf`, `-Inf` and
NaN become the three finite sentinels, finite values pass through. -/
def encodeNumberValue : FVal → FVal
  | .posInf => .finite maxFloat64
  | .negInf => .finite smallestNonzeroFloat64
  | .nan => .finite nanSentinel
  | .finite q => .finite q

/-- The `Expr.UnmarshalJSON` reverse substitution: the three sentinel values
become `+Inf`, `-Inf` and NaN, every other value passes through. -/
def decodeNumberValue : FVal → FVal
  | .finite q =>
    if q = maxFloat64 then .posInf
    else if q = smallestNonzeroFloat64 then .negInf
    else if q = nanSentinel then .nan
    else .finite q
  | v => v

/-- The expression payloads relevant to the number round trip: `ENumber` with
its substituted value, plus representative variants that pass through the JSON
layer unchanged. -/
inductive EData : Type
  | eNumber (value : FVal)
  | eBoolean (value : Bool)
  | eNull
  | eUndefined
  | eThis
  | eString (value : String)
deriving DecidableEq

/-- `js_ast.Expr`: a nilable payload (the `E` interface) plus a location. -/
structure Expr where
  data : Option EData
  loc : Loc
deriving DecidableEq

/-- `Expr.MarshalJSON` restricted to its observable effect on the decoded
value: only the `*js_ast.ENumber` case is rewritten. -/
def Expr.MarshalModel (e : Expr) : Expr :=
  match e.data with
  | some (.eNumber v) => { e with data := some (.eNumber (encodeNumberValue v)) }
  | _ => e

/-- `Expr.UnmarshalJSON` restricted likewise. -/
def Expr.UnmarshalModel (e : Expr) : Expr :=
  match e.data with
  | some (.eNumber v) => { e with data := some (.eNumber (decodeNumberValue v)) }
  | _ => e

/-- A serialize-then-deserialize round trip of one expression. -/
def Expr.RoundTrip (e : Expr) : Expr := Expr.UnmarshalModel (Expr.MarshalModel e)

/-- The number literal holding the finite value `math.MaxFloat64`. -/
def exprMaxFinite : Expr := { data := some (.eNumber (.finite maxFloat64)), loc := ⟨0⟩ }

/-- Counterexample for C3: the finite literal `math.MaxFloat64` does not
round-trip to itself — it comes back as `+Infinity` — so not every finite
value other than the infinities and NaN is preserved. -/
theorem maxFloat64_roundtrips_to_posInf :
    Expr.RoundTrip exprMaxFinite = { data := some (.eNumber .posInf), loc := ⟨0⟩ }
    ∧ ¬ Expr.RoundTrip exprMaxFinite = exprMaxFinite := by
  have h : Expr.RoundTrip exprMaxFinite
      = { data := some (.eNumber .posInf), loc := ⟨0⟩ } := by
    simp [Expr.RoundTrip, Expr.MarshalModel, Expr.UnmarshalModel, exprMaxFinite,
      encodeNumberValue, decodeNumberValue]
  refine ⟨h, ?ne⟩
  rw [h]
  simp [exprMaxFinite]

/-- C3 (amended): a number literal round-trips to itself when its value is
`+Inf`, `-Inf`, NaN, or any finite value other than the three sentinels
(`MaxFloat64`, `SmallestNonzeroFloat64`, `-12312333`); each sentinel instead
comes back as the special value it encodes. -/
theorem number_literal_roundtrip (e : Expr) :
    (∀ q : ℚ, e.data = some (.eNumber (.finite q)) →
      ¬ q = maxFloat64 → ¬ q = smallestNonzeroFloat64 → ¬ q = nanSentinel →
      Expr.RoundTrip e = e)
    ∧ (e.data = some (.eNumber .posInf) → Expr.RoundTrip e = e)
    ∧ (e.data = some (.eNumber .negInf) → Expr.RoundTrip e = e)
    ∧ (e.data = some (.eNumber .nan) → Expr.RoundTrip e = e)
    ∧ (e.data = some (.eNumber (.finite maxFloat64)) →
      (Expr.RoundTrip e).data = some (.eNumber .posInf))
    ∧ (e.data = some (.eNumber (.finite smallestNonzeroFloat64)) →
      (Expr.RoundTrip e).data = some (.eNumber .negInf))
    ∧ (e.data = some (.eNumber (.finite nanSentinel)) →
      (Expr.RoundTrip e).data = some (.eNumber .nan)) := by
  obtain ⟨d, l⟩ := e
  refine ⟨fun q hq h1 h2 h3 => ?fin, fun h => ?pi, fun h => ?ni, fun h => ?na,
    fun h => ?s1, fun h => ?s2, fun h => ?s3⟩
  all_goals simp only at *
  · subst hq
    simp [Expr.RoundTrip, Expr.MarshalModel, Expr.UnmarshalModel,
      encodeNumberValue, decodeNumberValue, h1, h2, h3]
  · subst h
    simp [Expr.RoundTrip, Expr.MarshalModel, Expr.UnmarshalModel,
      encodeNumberValue, decodeNumberValue]
  · subst h
    simp [Expr.RoundTrip, Expr.MarshalModel, Expr.UnmarshalModel,
      encodeNumberValue, decodeNumberValue, smallestNonzeroFloat64, maxFloat64]
    norm_num
  · subst h
    simp [Expr.RoundTrip, Expr.MarshalModel, Expr.UnmarshalModel,
      encodeNumberValue, decodeNumberValue, nanSentinel, maxFloat64,
      smallestNonzeroFloat64]
    norm_num
  · subst h
    simp [Expr.RoundTrip, Expr.MarshalModel, Expr.UnmarshalModel,
      encodeNumberValue, decodeNumberValue]
  · subst h
    simp [Expr.RoundTrip, Expr.MarshalModel, Expr.UnmarshalModel,
      encodeNumberValue, decodeNumberValue, smallestNonzeroFloat64, maxFloat64]
    norm_num
  · subst h
    simp [Expr.RoundTrip, Expr.MarshalModel, Expr.UnmarshalModel,
      encodeNumberValue, decodeNumberValue, nanSentinel, maxFloat64,
      smallestNonzeroFloat64]
    norm_num

/-- Witness for C3 (amended): the ordinary finite literal `5` and a `+Inf`
literal both survive the round trip. -/
theorem number_literal_roundtrip_witness :
    Expr.RoundTrip { data := some (.eNumber (.finite 5)), loc := ⟨1⟩ }
        = { data := some (.eNumber (.finite 5)), loc := ⟨1⟩ }
    ∧ Expr.RoundTrip { data := some (.eNumber .posInf), loc := ⟨1⟩ }
        = { data := some (.eNumber .posInf), loc := ⟨1⟩ } :=
  ⟨(number_literal_roundtrip _).1 5 rfl (by norm_num [maxFloat64])
      (by norm_num [smallestNonzeroFloat64]) (by norm_num [nanSentinel]),
    (number_literal_roundtrip _).2.1 rfl⟩

/-! ### Scope-tree wire format (`flattenScope`, `ScopeFromSerialized`,
`createScopeTreeFromSerialized`, `internal/js_ast/js_ast.go`) -/

/-- An in-memory scope tree as the serializer walks it: each scope carries the
synthetic name `getNameByScope` assigned to it and its child list. The many
payload fields (`Members`, `Kind`, `StrictMode`, ...) are copied verbatim on
both directions and do not participate in the tree wiring, so they are left
out of the model. -/
inductive ScopeTree : Type
  | node (name : String) (children : List ScopeTree)

def ScopeTree.name : ScopeTree → String
  | .node nm _ => nm

/-- `SerialiezdScope` (sic): one flat node with name-encoded cross references. -/
structure SerialiezdScope where
  name : String
  parent : String
  children : List String
deriving DecidableEq

mutual

/-- `flattenScope`: pre-order DFS; the node is emitted with its parent's name
(empty at the root) and its children's names, then the children follow. -/
def flattenScope : ScopeTree → String → List SerialiezdScope
  | .node nm cs, parentName =>
    { name := nm, parent := parentName, children := cs.map ScopeTree.name }
      :: flattenScopeList cs nm

def flattenScopeList : List ScopeTree → String → List SerialiezdScope
  | [], _ => []
  | c :: rest, parentName => flattenScope c parentName ++ flattenScopeList rest parentName

end

/-- A rehydrated scope node: nilable parent pointer and a child list whose
entries are nilable pointers, both rendered as names. -/
structure DScope where
  parent : Option String
  children : List (Option String)
deriving DecidableEq

/-- `ScopeFromSerialized`: a fresh node with no parent and a child list
pre-sized to `len(data.Children)` nil pointers
(`make([]*Scope, len(data.Children))`). -/
def ScopeFromSerialized (data : SerialiezdScope) : DScope :=
  { parent := none, children := List.replicate data.children.length none }

/-- Phase one of `createScopeTreeFromSerialized`: materialize every node into
the name-keyed map. -/
def buildScopesMap (data : List SerialiezdScope) : List (String × DScope) :=
  data.foldl (fun m s => insertA m s.name (ScopeFromSerialized s)) []

/-- Phase two, one serialized node: if its parent's name is not in the map it
becomes the root; otherwise its parent pointer is set and it is appended to
the parent's child list. The inner `none` fallbacks are unreachable because
phase one materialized every serialized name. -/
def attachStep (acc : List (String × DScope) × Option String) (s : SerialiezdScope) :
    List (String × DScope) × Option String :=
  match lookupA acc.1 s.parent with
  | none => (acc.1, some s.name)
  | some _ =>
    match lookupA acc.1 s.name with
    | none => acc
    | some childNode =>
      let m1 := insertA acc.1 s.name { childNode with parent := some s.parent }
      match lookupA m1 s.parent with
      | none => (m1, acc.2)
      | some parentNode =>
        (insertA m1 s.parent
          { parentNode with children := parentNode.children ++ [some s.name] }, acc.2)

/-- `createScopeTreeFromSerialized`: build all nodes, then wire the edges;
returns the final heap and the root's name (`none` when the list is empty). -/
def createScopeTreeFromSerialized (data : List SerialiezdScope) :
    List (String × DScope) × Option String :=
  data.foldl attachStep (buildScopesMap data, none)

/-- A two-scope tree: a root named `"r"` with a single child named `"c"`. -/
def exampleScopeTree : ScopeTree := .node "r" [.node "c" []]

/-- C1 (code bug): rehydrating the serialized form of the two-scope tree does
pick the empty-parent node `"r"` as root, but the root's child list comes back
as `[nil, "c"]` — `ScopeFromSerialized` pre-fills one nil slot per serialized
child and the wiring phase appends after them — so the child at index 0 is a
nil pointer and has no parent back-edge at all, against the claim that the
`i`-th child's parent equals the scope for every index `i`. -/
theorem scope_rehydration_prepends_nil_children :
    createScopeTreeFromSerialized (flattenScope exampleScopeTree "")
      = ([("r", { parent := none, children := [none, some "c"] }),
          ("c", { parent := some "r", children := [] })], some "r") := by decide

/-! ### Parse caches (`internal/cache/cache_ast.go`) -/

/-- `logger.Source`: the fields compared and stored by the caches. -/
structure Source where
  index : Nat
  keyPath : Path
  prettyPath : String
  contents : String
  identifierName : String
deriving DecidableEq

/-- A buffered diagnostic (`logger.Msg`); its content is opaque here, only
identity and order matter. -/
structure Msg where
  text : String
deriving DecidableEq

/-- `js_parser.Options` for JS parses: carried in the entry but not compared
by the hit check, so its content is opaque. -/
structure JSOptions where
  optionsId : Nat
deriving DecidableEq

/-- `js_ast.AST` as the JS cache stores and returns it: opaque payload. -/
structure AST where
  astId : Nat
deriving DecidableEq

/-- `jsCacheEntry`. -/
structure JsCacheEntry where
  source : Source
  msgs : List Msg
  options : JSOptions
  ast : AST
  ok : Bool
deriving DecidableEq

/-- What one `JSCache.Parse` call produces: the returned pair, the caller's
log after the call, the store after the call, and whether `js_parser.Parse`
was invoked. -/
structure JSParseResult where
  ast : AST
  ok : Bool
  log : List Msg
  entries : List (Path × JsCacheEntry)
  invokedParser : Bool
deriving DecidableEq

/-- The miss path of `JSCache.Parse`: run the parser on a deferred log, drain
its messages into the caller's log, build the entry and store it under the
key path. -/
def JSCache.parseMiss (parse : Source → JSOptions → AST × Bool × List Msg)
    (entries : List (Path × JsCacheEntry)) (log : List Msg)
    (source : Source) (options : JSOptions) : JSParseResult :=
  let r := parse source options
  { ast := r.1
    ok := r.2.1
    log := log ++ r.2.2
    entries := insertA entries source.keyPath
      { source := source, msgs := r.2.2, options := options, ast := r.1, ok := r.2.1 }
    invokedParser := true }

/-- `JSCache.Parse`: the hit check compares only `PrettyPath` and `Contents`
of the stored source (the options comparison is commented out in the code);
on a hit the buffered diagnostics are replayed in order and the cached pair
returned. -/
def JSCache.Parse (parse : Source → JSOptions → AST × Bool × List Msg)
    (entries : List (Path × JsCacheEntry)) (log : List Msg)
    (source : Source) (options : JSOptions) : JSParseResult :=
  match lookupA entries source.keyPath with
  | some entry =>
    if entry.source.prettyPath = source.prettyPath ∧ entry.source.contents = source.contents then
      { ast := entry.ast
        ok := entry.ok
        log := log ++ entry.msgs
        entries := entries
        invokedParser := false }
    else JSCache.parseMiss parse entries log source options
  | none => JSCache.parseMiss parse entries log source options

/-- C2: when the store holds an entry for the call's key path whose source has
the same pretty path and byte-identical contents, `JSCache.Parse` does not
invoke the parser, appends the entry's buffered diagnostics to the caller's
log in their stored order, returns the cached `(ast, ok)`, and leaves the
store untouched. -/
theorem jscache_parse_hit (parse : Source → JSOptions → AST × Bool × List Msg)
    (entries : List (Path × JsCacheEntry)) (log : List Msg)
    (source : Source) (options : JSOptions) (entry : JsCacheEntry)
    (hl : lookupA entries source.keyPath = some entry)
    (hp : entry.source.prettyPath = source.prettyPath)
    (hc : entry.source.contents = source.contents) :
    JSCache.Parse parse entries log source options
      = { ast := entry.ast
          ok := entry.ok
          log := log ++ entry.msgs
          entries := entries
          invokedParser := false } := by
  simp [JSCache.Parse, hl, hp, hc]

/-- The source stored by the sample JS cache entry. -/
def srcA1 : Source :=
  { index := 1, keyPath := ⟨"/a.js"⟩, prettyPath := "a.js",
    contents := "x", identifierName := "a" }

/-- The same file as seen by a later build: only the runtime index differs. -/
def srcA2 : Source := { srcA1 with index := 2 }

/-- A stored JS cache entry with one buffered diagnostic. -/
def entryA : JsCacheEntry :=
  { source := srcA1, msgs := [⟨"warn"⟩], options := ⟨0⟩, ast := ⟨7⟩, ok := true }

/-- Witness for C2: a concrete hit replays the stored diagnostic and skips the
parser even though the parser would produce a different AST. -/
theorem jscache_parse_hit_witness :
    JSCache.Parse (fun _ _ => (⟨99⟩, false, [])) [(⟨"/a.js"⟩, entryA)] [⟨"old"⟩] srcA2 ⟨0⟩
      = { ast := ⟨7⟩
          ok := true
          log := [⟨"old"⟩, ⟨"warn"⟩]
          entries := [(⟨"/a.js"⟩, entryA)]
          invokedParser := false } :=
  jscache_parse_hit _ _ _ _ _ entryA (by decide) rfl rfl

/-- `SaveCacheEntryToFile`, parametrized by the result of `json.Marshal` on
the entry and the `os.WriteFile` outcome. The outer `Option` is the nil
dereference when the entry is absent; otherwise the pair is the error
returned to the caller and whether the write was attempted. When the
marshalled payload is empty, the code prints a message and then executes
`return error(nil)` — a nil error. -/
def SaveCacheEntryToFile (entries : List (Path × JsCacheEntry)) (entryPath : Path)
    (marshal : JsCacheEntry → Except String String) (writeRes : Option String) :
    Option (Option String × Bool) :=
  match lookupA entries entryPath with
  | none => none
  | some entry =>
    match marshal entry with
    | .error e => some (some e, false)
    | .ok payload =>
      if payload.length ≠ 0 then some (writeRes, true)
      else some (none, false)

/-- A minimal concrete JS cache entry for evaluating the disk-write path. -/
def sampleJsEntry : JsCacheEntry :=
  { source := { index := 1, keyPath := ⟨"/a.js"⟩, prettyPath := "a.js",
                contents := "x", identifierName := "a" }
    msgs := [], options := ⟨0⟩, ast := ⟨7⟩, ok := true }

/-- C7 (code bug): when the serializer yields an empty byte string,
`SaveCacheEntryToFile` does skip the write but returns `error(nil)`, i.e. no
error reaches the caller, against the claim that a non-nil error is
surfaced. -/
theorem save_empty_payload_returns_nil_error :
    SaveCacheEntryToFile [(⟨"/a.js"⟩, sampleJsEntry)] ⟨"/a.js"⟩
        (fun _ => .ok "") (some "disk full")
      = some (none, false) := rfl

/-- `js_parser.JSONOptions`: compared with `==` by the JSON cache. -/
structure JSONOptions where
  flags : Nat
deriving DecidableEq

/-- `jsonCacheEntry`. -/
structure JsonCacheEntry where
  expr : Expr
  msgs : List Msg
  source : Source
  options : JSONOptions
  ok : Bool
deriving DecidableEq

/-- What one `JSONCache.Parse` call produces. -/
structure JSONParseResult where
  expr : Expr
  ok : Bool
  log : List Msg
  entries : List (Path × JsonCacheEntry)
  invokedParser : Bool
deriving DecidableEq

/-- The miss path of `JSONCache.Parse`. -/
def JSONCache.parseMiss (parse : Source → JSONOptions → Expr × Bool × List Msg)
    (entries : List (Path × JsonCacheEntry)) (log : List Msg)
    (source : Source) (options : JSONOptions) : JSONParseResult :=
  let r := parse source options
  { expr := r.1
    ok := r.2.1
    log := log ++ r.2.2
    entries := insertA entries source.keyPath
      { expr := r.1, msgs := r.2.2, source := source, options := options, ok := r.2.1 }
    invokedParser := true }

/-- `JSONCache.Parse`: the hit check is `entry.source == source` — full struct
equality, index included — conjoined with `entry.options == options`. -/
def JSONCache.Parse (parse : Source → JSONOptions → Expr × Bool × List Msg)
    (entries : List (Path × JsonCacheEntry)) (log : List Msg)
    (source : Source) (options : JSONOptions) : JSONParseResult :=
  match lookupA entries source.keyPath with
  | some entry =>
    if entry.source = source ∧ entry.options = options then
      { expr := entry.expr
        ok := entry.ok
        log := log ++ entry.msgs
        entries := entries
        invokedParser := false }
    else JSONCache.parseMiss parse entries log source options
  | none => JSONCache.parseMiss parse entries log source options

/-- C10: with an entry stored under the call's key, `JSONCache.Parse` skips
the parser exactly when the entry's entire source (index included) and its
options equal the call's; and when only the source index differs, the parser
runs again and the freshly parsed entry replaces the stored one. -/
theorem jsoncache_parse_requires_full_equality
    (parse : Source → JSONOptions → Expr × Bool × List Msg)
    (entries : List (Path × JsonCacheEntry)) (log : List Msg)
    (source : Source) (options : JSONOptions) (entry : JsonCacheEntry)
    (hl : lookupA entries source.keyPath = some entry) :
    ((JSONCache.Parse parse entries log source options).invokedParser = false
      ↔ (entry.source = source ∧ entry.options = options))
    ∧ (¬ entry.source.index = source.index →
      (JSONCache.Parse parse entries log source options).invokedParser = true
      ∧ lookupA (JSONCache.Parse parse entries log source options).entries source.keyPath
          = some { expr := (parse source options).1
                   msgs := (parse source options).2.2
                   source := source
                   options := options
                   ok := (parse source options).2.1 }) := by
  by_cases hcond : entry.source = source ∧ entry.options = options
  · constructor
    · simp [JSONCache.Parse, hl, hcond]
    · intro hidx
      exact absurd (congrArg Source.index hcond.1) hidx
  · constructor
    · simp [JSONCache.Parse, hl, hcond, JSONCache.parseMiss]
    · intro _
      refine ⟨by simp [JSONCache.Parse, hl, hcond, JSONCache.parseMiss], ?stored⟩
      simp [JSONCache.Parse, hl, hcond, JSONCache.parseMiss, lookupA_insertA_self]

/-- The source stored by the sample JSON cache entry. -/
def srcD1 : Source :=
  { index := 1, keyPath := ⟨"/d.json"⟩, prettyPath := "d.json",
    contents := "0", identifierName := "d" }

/-- The same JSON file with a different runtime index. -/
def srcD2 : Source := { srcD1 with index := 2 }

/-- A stored JSON cache entry. -/
def entryD : JsonCacheEntry :=
  { expr := { data := some .eNull, loc := ⟨0⟩ }, msgs := [], source := srcD1,
    options := ⟨0⟩, ok := true }

/-- A concrete JSON parser returning a fresh expression. -/
def parseD : Source → JSONOptions → Expr × Bool × List Msg :=
  fun _ _ => ({ data := none, loc := ⟨0⟩ }, true, [])

/-- Witness for C10: byte-identical contents and pretty path but a different
runtime source index cause a re-parse that replaces the stored entry. -/
theorem jsoncache_parse_requires_full_equality_witness :
    (JSONCache.Parse parseD [(⟨"/d.json"⟩, entryD)] [] srcD2 ⟨0⟩).invokedParser = true
    ∧ lookupA (JSONCache.Parse parseD [(⟨"/d.json"⟩, entryD)] [] srcD2 ⟨0⟩).entries
          ⟨"/d.json"⟩
        = some { expr := { data := none, loc := ⟨0⟩ }, msgs := [], source := srcD2,
                 options := ⟨0⟩, ok := true } :=
  (jsoncache_parse_requires_full_equality parseD [(⟨"/d.json"⟩, entryD)] [] srcD2 ⟨0⟩
      entryD (by decide)).2 (by decide)

end Esbuild
